import Mathlib

/-!
Verification of the build-and-publish orchestrator in
`src/build-docker-image.py` against its natural-language specification.

The script is shallowly embedded: Python strings become `String`, absent
environment variables become `none`, the scattered `os.environ` /
`get_input` reads become one immutable `Config` record (the environment
never changes while `main` runs, so this is behaviour-preserving), and the
external commands (`docker`, `jupyter-repo2docker`) become an explicit
trace of `Step` values whose success is decided by a `World` oracle.
-/

/-- Truthiness of an optional string, exactly as Python evaluates the result
of `os.environ.get` in a boolean context: `None` and `""` are falsy, every
other string is truthy. -/
def truthy : Option String → Bool
  | none => false
  | some s => !(s == "")

/-- Python slicing `s[:n]` on a string, by code points (models
`os.environ['GITHUB_SHA'][:12]` on line 128). -/
def pyTake (s : String) (n : Nat) : String :=
  String.mk (s.data.take n)

/-- Python `s.lower()` (line 117), character by character, on the basic
latin range (the range relevant to the identifiers involved). -/
def pyLower (s : String) : String :=
  String.mk (s.data.map Char.toLower)

/-- Helper for `pyLastSegment`: walks the characters keeping the segment
read since the last separator, in reverse. -/
def lastSegmentAux : List Char → List Char → List Char
  | acc, [] => acc.reverse
  | acc, c :: cs => if c = '/' then lastSegmentAux [] cs else lastSegmentAux (c :: acc) cs

/-- Python `s.split('/')[-1]` (line 103): the part of `s` after its last
`/`, or all of `s` when it has none. -/
def pyLastSegment (s : String) : String :=
  String.mk (lastSegmentAux [] s.data)

/-- Model of `os.environ`: a partial map from variable names to values. -/
def EnvMap : Type := String → Option String

/-- Source function `get_input` (lines 6-12): the value of the environment
variable `INPUT_<input_name>`, or `none` when it is not present. -/
def get_input (env : EnvMap) (input_name : String) : Option String :=
  env ("INPUT_" ++ input_name)

/-- The configuration `main` reads: every recognized `INPUT_*` option plus
the `GITHUB_*` variables the source requires. `none` models an absent
variable, `some ""` one that is set to the empty string. -/
structure Config where
  appendix_file : Option String := none
  image_name : Option String := none
  docker_username : Option String := none
  docker_password : Option String := none
  docker_registry : Option String := none
  notebook_user : Option String := none
  mybinderorg_tag : Option String := none
  binder_cache : Option String := none
  repo_dir : Option String := none
  no_push : Option String := none
  latest_tag_off : Option String := none
  additional_tag : Option String := none
  github_repository : Option String := none
  github_actor : Option String := none
  github_sha : Option String := none
deriving DecidableEq

/-- Collection of the environment reads of `main` into one record.  The
environment is immutable while the script runs, so reading each variable
once up front is equivalent to the source's scattered repeated reads. -/
def readConfig (env : EnvMap) : Config where
  appendix_file := get_input env "APPENDIX_FILE"
  image_name := get_input env "IMAGE_NAME"
  docker_username := get_input env "DOCKER_USERNAME"
  docker_password := get_input env "DOCKER_PASSWORD"
  docker_registry := get_input env "DOCKER_REGISTRY"
  notebook_user := get_input env "NOTEBOOK_USER"
  mybinderorg_tag := get_input env "MYBINDERORG_TAG"
  binder_cache := get_input env "BINDER_CACHE"
  repo_dir := get_input env "REPO_DIR"
  no_push := get_input env "NO_PUSH"
  latest_tag_off := get_input env "LATEST_TAG_OFF"
  additional_tag := get_input env "ADDITIONAL_TAG"
  github_repository := env "GITHUB_REPOSITORY"
  github_actor := env "GITHUB_ACTOR"
  github_sha := env "GITHUB_SHA"

/-- One external command of the run.  `login`'s registry stays an `Option`
because the source passes `get_input('DOCKER_REGISTRY')` (possibly `None`)
straight into the argument list (line 137). -/
inductive Step where
  | login (registry : Option String) (username password : String)
  | pull (image : String)
  | build (nb_user repo_dir image_name cache_from : String)
      (appendix : Option String) (src_dir : String)
  | test (repo_dir full_image_name : String)
  | pushPrimary (image : String)
  | tag (src dst : String)
  | pushExtra (image : String)
deriving DecidableEq

/-- Failure of the run: a missing appendix file (`FileNotFoundError` from
`open`), a missing required environment variable (`KeyError` from
`os.environ[...]`), or a fatal external command (`CalledProcessError` from
`subprocess.run(check=True)`, and the `TypeError` of a `None` registry
argument, both of which abort with nonzero exit). -/
inductive Err where
  | fileNotFound (path : String)
  | keyError (key : String)
  | cmdFailed (s : Step)
deriving DecidableEq

/-- The derived build plan: every value lines 97-133 of `main` compute
before the first external command runs. -/
structure Plan where
  appendix : Option String
  image_name : String
  notebook_user : String
  repo_dir : String
  full_image_name : String
  push : Bool
  src_dir : String
deriving DecidableEq

/-- Lines 97-101 of `main`: when `APPENDIX_FILE` is truthy the named file
is read (a missing file raises `FileNotFoundError`), otherwise the
appendix is `None`.  `fs` models the readable files. -/
def appendixOf (cfg : Config) (fs : String → Option String) :
    Except Err (Option String) :=
  if truthy cfg.appendix_file then
    match fs (cfg.appendix_file.getD "") with
    | some contents => Except.ok (some contents)
    | none => Except.error (Err.fileNotFound (cfg.appendix_file.getD ""))
  else
    Except.ok none

/-- Line 103: `os.environ['GITHUB_REPOSITORY'].split('/')[-1]`, raising
`KeyError` when the variable is absent. -/
def repoNameOf (cfg : Config) : Except Err String :=
  match cfg.github_repository with
  | some r => Except.ok (pyLastSegment r)
  | none => Except.error (Err.keyError "GITHUB_REPOSITORY")

/-- Lines 106-117: the image name.  `IMAGE_NAME` verbatim when truthy;
otherwise `{GITHUB_ACTOR}/{repo_name}` when `DOCKER_USERNAME` is `None`
(raising `KeyError` when `GITHUB_ACTOR` is absent), else
`{DOCKER_USERNAME}/{repo_name}`; then the registry prefix when
`DOCKER_REGISTRY` is truthy; then `.lower()`. -/
def imageNameOf (cfg : Config) (repo_name : String) : Except Err String :=
  match
    (if truthy cfg.image_name then
      Except.ok (cfg.image_name.getD "")
    else
      match cfg.docker_username with
      | none =>
        match cfg.github_actor with
        | some actor => Except.ok (actor ++ "/" ++ repo_name)
        | none => Except.error (Err.keyError "GITHUB_ACTOR")
      | some u => Except.ok (u ++ "/" ++ repo_name) : Except Err String)
  with
  | Except.error e => Except.error e
  | Except.ok image_name0 =>
    Except.ok (pyLower
      (if truthy cfg.docker_registry then
        cfg.docker_registry.getD "" ++ "/" ++ image_name0
      else
        image_name0))

/-- Lines 119-124: `jovyan` when `NOTEBOOK_USER` is falsy or
`MYBINDERORG_TAG` or `BINDER_CACHE` is truthy, else the given
`NOTEBOOK_USER`. -/
def notebookUserOf (cfg : Config) : String :=
  if !truthy cfg.notebook_user || truthy cfg.mybinderorg_tag || truthy cfg.binder_cache then
    "jovyan"
  else
    cfg.notebook_user.getD ""

/-- Line 126: `get_input('REPO_DIR', f'/home/{notebook_user}')` - the
default applies only when the variable is absent, not when it is empty. -/
def repoDirOf (cfg : Config) : String :=
  cfg.repo_dir.getD ("/home/" ++ notebookUserOf cfg)

/-- Line 128: `os.environ['GITHUB_SHA'][:12]`, raising `KeyError` when the
variable is absent; a shorter value is sliced to its whole self. -/
def shaOf (cfg : Config) : Except Err String :=
  match cfg.github_sha with
  | some s => Except.ok (pyTake s 12)
  | none => Except.error (Err.keyError "GITHUB_SHA")

/-- Configuration-resolution part of `main` (lines 97-133), composing the
stage functions above in the source's evaluation order.  `cwd` models
`os.getcwd()` (line 133). -/
def mkPlan (cfg : Config) (fs : String → Option String) (cwd : String) :
    Except Err Plan :=
  match appendixOf cfg fs with
  | Except.error e => Except.error e
  | Except.ok appendix =>
    match repoNameOf cfg with
    | Except.error e => Except.error e
    | Except.ok repo_name =>
      match imageNameOf cfg repo_name with
      | Except.error e => Except.error e
      | Except.ok image_name =>
        match shaOf cfg with
        | Except.error e => Except.error e
        | Except.ok sha =>
          Except.ok {
            appendix := appendix
            image_name := image_name
            notebook_user := notebookUserOf cfg
            repo_dir := repoDirOf cfg
            full_image_name := image_name ++ ":" ++ sha
            push := !truthy cfg.no_push
            src_dir := cwd
          }

/-- External world of the run: `exec n` is the exit status (success =
`true`) of the `n`-th external command the script starts, and `testsDir p`
tells whether directory `p` exists (`os.path.isdir`, line 145). -/
structure World where
  exec : Nat → Bool
  testsDir : String → Bool

/-- Planned invocation of one external command, together with whether the
source passes `check=True` to `subprocess.run` for it. -/
structure Cmd where
  step : Step
  checked : Bool
deriving DecidableEq

/-- Success of a step run as the `n`-th external command.  A `login` whose
registry is `None` never succeeds: `subprocess.run` raises `TypeError`
before the process can start (lines 18-22 with `registry = None`). -/
def stepSucceeds (w : World) (n : Nat) : Step → Bool
  | Step.login none _ _ => false
  | _ => w.exec n

/-- Sequential driver for the command phase: each planned command is
appended to the trace in order; a command run with `check=True` that fails
aborts the run with `CalledProcessError` (modelled as `Err.cmdFailed`),
an unchecked one lets the run continue regardless of its exit status. -/
def runSeq (w : World) : List Cmd → List Step → List Step × Except Err Unit
  | [], tr => (tr, Except.ok ())
  | c :: rest, tr =>
    if c.checked && !stepSucceeds w tr.length c.step then
      (tr ++ [c.step], Except.error (Err.cmdFailed c.step))
    else
      runSeq w rest (tr ++ [c.step])

/-- Login condition of line 136: `if push and get_input('DOCKER_PASSWORD')
and get_input('DOCKER_USERNAME')`. -/
def loginNeeded (cfg : Config) (p : Plan) : Bool :=
  p.push && truthy cfg.docker_password && truthy cfg.docker_username

/-- Additional tags of lines 158-163: `latest` unless `LATEST_TAG_OFF` is
truthy, then the value of `ADDITIONAL_TAG` when truthy. -/
def additional_tags (cfg : Config) : List String :=
  (if !truthy cfg.latest_tag_off then ["latest"] else []) ++
  (if truthy cfg.additional_tag then [cfg.additional_tag.getD ""] else [])

/-- The `docker tag` / `docker push` pair lines 165-171 run for one
additional tag `t`: the alias is created with `check=True`, its push runs
without `check`. -/
def tagCmds (p : Plan) (t : String) : List Cmd :=
  [⟨Step.tag p.full_image_name (p.image_name ++ ":" ++ t), true⟩,
   ⟨Step.pushExtra (p.image_name ++ ":" ++ t), false⟩]

/-- The external commands lines 136-172 of `main` start, in source order:
optional login, best-effort pull, build, optional test, then - when
pushing - the primary push followed by tag/push pairs for each additional
tag.  The argument values are exactly the ones the source passes. -/
def plannedCmds (cfg : Config) (w : World) (p : Plan) : List Cmd :=
  (if loginNeeded cfg p then
    [⟨Step.login cfg.docker_registry (cfg.docker_username.getD "")
        (cfg.docker_password.getD ""), true⟩]
  else []) ++
  [⟨Step.pull p.full_image_name, false⟩,
   ⟨Step.build p.notebook_user p.repo_dir p.full_image_name p.image_name
      p.appendix p.src_dir, true⟩] ++
  (if w.testsDir (p.src_dir ++ "/image-tests") then
    [⟨Step.test p.repo_dir p.full_image_name, true⟩]
  else []) ++
  (if p.push then
    ⟨Step.pushPrimary p.full_image_name, true⟩ ::
      (additional_tags cfg).flatMap (tagCmds p)
  else [])

/-- Command phase of `main` (lines 136-172) on an already-derived plan. -/
def execPlan (cfg : Config) (w : World) (p : Plan) :
    List Step × Except Err Unit :=
  runSeq w (plannedCmds cfg w p) []

/-- Whole run of `main`: configuration resolution, then the command phase.
The first component is the trace of external commands started, the second
the exit behaviour (`Except.ok ()` = exit 0). -/
def run (cfg : Config) (fs : String → Option String) (cwd : String)
    (w : World) : List Step × Except Err Unit :=
  match mkPlan cfg fs cwd with
  | Except.error e => ([], Except.error e)
  | Except.ok p => execPlan cfg w p

/-- Shell script `run_image_tests` pipes to `/bin/bash -c` (lines 59-82),
after `textwrap.dedent`. -/
def testsScript : String :=
  "\nexport PYTEST_FLAGS=\"\";\n\n# If there is a requirements.txt file inside image-tests, install it.\n# Useful if you want to install a bunch of pytest packages.\n[ -f image-tests/requirements.txt ] && \\\n    echo \"Installing from image-tests/requirements.txt...\" && \\\n    python3 -m pip install --no-cache -r image-tests/requirements.txt;\n\n# If pytest is not already installed in the image, install it.\nwhich py.test > /dev/null || \\\n    echo \"Installing pytest inside the image...\" && \\\n    python3 -m pip install --no-cache pytest > /dev/null;\n\n# If there are any .ipynb files in image-tests, install pytest-notebook\n# if necessary, and set PYTEST_FLAGS so notebook tests are run.\nls image-tests/*.ipynb > /dev/null && \\\n    echo \"Found notebooks, using pytest-notebook to run them...\" && \\\n    export PYTEST_FLAGS=\"--nb-test-files ${PYTEST_FLAGS}\" && \\\n    python3 -c \"import pytest_notebook\" 2> /dev/null || \\\n        python3 -m pip install --no-cache pytest-notebook > /dev/null;\n\npy.test ${PYTEST_FLAGS} image-tests/\n"

/-- Argument list `subprocess.run` receives for each step, when it can be
built: a `login` with a `None` registry has no buildable argument list
(Python raises `TypeError`), every other step maps to the literal list the
source constructs. -/
def argvOf : Step → Option (List String)
  | Step.login none _ _ => none
  | Step.login (some r) u _ =>
    some ["docker", "login", r, "-u", u, "--password-stdin"]
  | Step.pull image => some ["docker", "pull", image]
  | Step.build nb_user repo_dir image_name cache_from appendix src_dir =>
    some (["jupyter-repo2docker", "--no-run", "--user-id", "1000",
      "--user-name", nb_user, "--target-repo-dir", repo_dir,
      "--image-name", image_name, "--cache-from", cache_from] ++
      (if truthy appendix then ["--appendix", appendix.getD ""] else []) ++
      [src_dir])
  | Step.test repo_dir full_image_name =>
    some ["docker", "run", "-u", "1000", "-w", repo_dir, full_image_name,
      "/bin/bash", "-c", testsScript]
  | Step.pushPrimary image => some ["docker", "push", image]
  | Step.tag src dst => some ["docker", "tag", src, dst]
  | Step.pushExtra image => some ["docker", "push", image]

/-- Standard input `subprocess.run` receives for each step: only `login`
gets one (`input=password`, line 22). -/
def stdinOf : Step → Option String
  | Step.login _ _ password => some password
  | _ => none

/-- Phase number of a step in the source's linear control flow: login is
started on line 137, pull on line 139, build on line 142, test on line
147, and every push-block command on lines 153-171. -/
def phase : Step → Nat
  | Step.login _ _ _ => 0
  | Step.pull _ => 1
  | Step.build _ _ _ _ _ _ => 2
  | Step.test _ _ => 3
  | Step.pushPrimary _ => 4
  | Step.tag _ _ => 4
  | Step.pushExtra _ => 4

/-- Recognizer for `login` steps. -/
def Step.isLogin : Step → Bool
  | Step.login _ _ _ => true
  | _ => false

/-- Recognizer for `docker pull` steps. -/
def Step.isPull : Step → Bool
  | Step.pull _ => true
  | _ => false

/-- Recognizer for `docker push` steps (primary or additional). -/
def Step.isPush : Step → Bool
  | Step.pushPrimary _ => true
  | Step.pushExtra _ => true
  | _ => false

/-- Recognizer for `docker tag` steps. -/
def Step.isTag : Step → Bool
  | Step.tag _ _ => true
  | _ => false

/-- Recognizer for the best-effort push of an additional tag (the
`subprocess.run` without `check=True`, lines 169-171). -/
def Step.isPushExtra : Step → Bool
  | Step.pushExtra _ => true
  | _ => false

/-- Image-name rule as the specification words it (spec 4.1 rule 3):
IMAGE_NAME verbatim when given, else `{actor}/{repo_name}` when
DOCKER_USERNAME is absent, else `{DOCKER_USERNAME}/{repo_name}`; prepend
`{registry}/` when DOCKER_REGISTRY is given; lowercase the entire result.
Following the specification's conventions, an option set to the empty
string counts as not given, while DOCKER_USERNAME is tested for absence. -/
def specImageName (cfg : Config) (actor repo_name : String) : String :=
  pyLower
    ((if truthy cfg.docker_registry then cfg.docker_registry.getD "" ++ "/" else "") ++
      (if truthy cfg.image_name then cfg.image_name.getD ""
       else if cfg.docker_username = none then actor ++ "/" ++ repo_name
       else cfg.docker_username.getD "" ++ "/" ++ repo_name))

/-- Filesystem with no readable files, for concrete runs. -/
def fsEmpty : String → Option String := fun _ => none

/-- World in which every external command succeeds and the
`image-tests` directory exists. -/
def wAllOk : World := { exec := fun _ => true, testsDir := fun _ => true }

/-- World in which every external command succeeds and there is no
`image-tests` directory. -/
def wNoTests : World := { exec := fun _ => true, testsDir := fun _ => false }

/-- World in which exactly the second external command (index 1) fails
and there is no `image-tests` directory. -/
def wFail1 : World := { exec := fun n => !(n == 1), testsDir := fun _ => false }

/-- World in which exactly the fourth external command (index 3) fails
and there is no `image-tests` directory. -/
def wFailTag : World := { exec := fun n => !(n == 3), testsDir := fun _ => false }

/-- Minimal valid configuration: only the required CI-supplied variables. -/
def cfgBase : Config := {
  github_repository := some "octocat/hello-world"
  github_actor := some "octocat"
  github_sha := some "abcdef1234567890"
}

/-- Configuration with mixed-case actor, repository and registry. -/
def cfgC3 : Config := {
  github_repository := some "OctoCat/Hello-World"
  github_actor := some "OctoCat"
  github_sha := some "abcdef1234567890"
  docker_registry := some "GHCR.io"
}

/-- The plan `mkPlan` derives from `cfgC3`. -/
def planC3 : Plan := {
  appendix := none
  image_name := "ghcr.io/octocat/hello-world"
  notebook_user := "jovyan"
  repo_dir := "/home/jovyan"
  full_image_name := "ghcr.io/octocat/hello-world:abcdef123456"
  push := true
  src_dir := "/workdir"
}

/-- The plan `mkPlan` derives from `cfgBase` (and from `cfgC7`, which
only adds a tag option that does not affect the plan). -/
def planBase : Plan := {
  appendix := none
  image_name := "octocat/hello-world"
  notebook_user := "jovyan"
  repo_dir := "/home/jovyan"
  full_image_name := "octocat/hello-world:abcdef123456"
  push := true
  src_dir := "/workdir"
}

/-- Configuration with both NOTEBOOK_USER and MYBINDERORG_TAG set. -/
def cfgC5 : Config := {
  github_repository := some "octocat/hello-world"
  github_actor := some "octocat"
  github_sha := some "abcdef1234567890"
  notebook_user := some "joe"
  mybinderorg_tag := some "mybinder-tag"
}

/-- The plan `mkPlan` derives from `cfgC5`. -/
def planC5 : Plan := {
  appendix := none
  image_name := "octocat/hello-world"
  notebook_user := "jovyan"
  repo_dir := "/home/jovyan"
  full_image_name := "octocat/hello-world:abcdef123456"
  push := true
  src_dir := "/workdir"
}

/-- Configuration whose commit identifier has only 3 characters. -/
def cfgShortSha : Config := {
  github_repository := some "octocat/hello-world"
  github_actor := some "octocat"
  github_sha := some "abc"
}

/-- The plan `mkPlan` derives from `cfgShortSha`: it exists, and its tag
is the whole 3-character identifier. -/
def planShortSha : Plan := {
  appendix := none
  image_name := "octocat/hello-world"
  notebook_user := "jovyan"
  repo_dir := "/home/jovyan"
  full_image_name := "octocat/hello-world:abc"
  push := true
  src_dir := "/workdir"
}

/-- Configuration with credentials but NO_PUSH set. -/
def cfgNoPush : Config := {
  github_repository := some "octocat/hello-world"
  github_actor := some "octocat"
  github_sha := some "abcdef1234567890"
  docker_username := some "user"
  docker_password := some "hunter2"
  no_push := some "true"
}

/-- Configuration with full registry credentials. -/
def cfgC9 : Config := {
  github_repository := some "octocat/hello-world"
  github_actor := some "octocat"
  github_sha := some "abcdef1234567890"
  docker_username := some "user"
  docker_password := some "hunter2"
  docker_registry := some "registry.io"
}

/-- The plan `mkPlan` derives from `cfgC9`. -/
def planC9 : Plan := {
  appendix := none
  image_name := "registry.io/user/hello-world"
  notebook_user := "jovyan"
  repo_dir := "/home/jovyan"
  full_image_name := "registry.io/user/hello-world:abcdef123456"
  push := true
  src_dir := "/workdir"
}

/-- Configuration with ADDITIONAL_TAG=v2 and LATEST_TAG_OFF unset. -/
def cfgC7 : Config := {
  github_repository := some "octocat/hello-world"
  github_actor := some "octocat"
  github_sha := some "abcdef1234567890"
  additional_tag := some "v2"
}

/-- The base configuration with REPO_DIR set to the empty string. -/
def cfgRepoDirEmpty : Config := { cfgBase with repo_dir := some "" }

/-- The credentialed configuration with DOCKER_REGISTRY set to the empty
string. -/
def cfgRegEmpty : Config := { cfgC9 with docker_registry := some "" }

/-- The credentialed configuration with DOCKER_REGISTRY absent. -/
def cfgRegNone : Config := { cfgC9 with docker_registry := none }

/-- The base configuration with DOCKER_USERNAME set to the empty string. -/
def cfgUserEmpty : Config := { cfgBase with docker_username := some "" }

/-- The plan `mkPlan` derives from `cfgUserEmpty`: its image name has an
empty namespace. -/
def planUserEmpty : Plan := {
  appendix := none
  image_name := "/hello-world"
  notebook_user := "jovyan"
  repo_dir := "/home/jovyan"
  full_image_name := "/hello-world:abcdef123456"
  push := true
  src_dir := "/workdir"
}

/-- Inversion of `mkPlan`: a plan is produced exactly when all four
fallible stages succeed, and its fields are exactly the stage outputs. -/
theorem mkPlan_ok_iff {cfg : Config} {fs : String → Option String} {cwd : String} {p : Plan} :
    mkPlan cfg fs cwd = Except.ok p ↔
    ∃ appendix repo_name image_name sha,
      appendixOf cfg fs = Except.ok appendix ∧
      repoNameOf cfg = Except.ok repo_name ∧
      imageNameOf cfg repo_name = Except.ok image_name ∧
      shaOf cfg = Except.ok sha ∧
      p = { appendix := appendix, image_name := image_name,
            notebook_user := notebookUserOf cfg, repo_dir := repoDirOf cfg,
            full_image_name := image_name ++ ":" ++ sha,
            push := !truthy cfg.no_push, src_dir := cwd } := by
  constructor
  · intro h
    cases ha : appendixOf cfg fs with
    | error e => simp [mkPlan, ha] at h
    | ok a =>
      cases hr : repoNameOf cfg with
      | error e => simp [mkPlan, ha, hr] at h
      | ok r =>
        cases hi : imageNameOf cfg r with
        | error e => simp [mkPlan, ha, hr, hi] at h
        | ok i =>
          cases hs : shaOf cfg with
          | error e => simp [mkPlan, ha, hr, hi, hs] at h
          | ok s =>
            refine ⟨a, r, i, s, rfl, rfl, hi, rfl, ?_⟩
            simp [mkPlan, ha, hr, hi, hs] at h
            exact h.symm
  · rintro ⟨a, r, i, s, ha, hr, hi, hs, rfl⟩
    simp [mkPlan, ha, hr, hi, hs]

/-- Complete description of one `runSeq` pass: either every command ran
and every checked one succeeded, or there is a first failing checked
command, the trace stops right after it, and the run reports it. -/
theorem runSeq_char (w : World) (cmds : List Cmd) (tr : List Step) :
    ((runSeq w cmds tr).2 = Except.ok () ∧
      (runSeq w cmds tr).1 = tr ++ cmds.map Cmd.step ∧
      ∀ j c, cmds[j]? = some c → c.checked = true →
        stepSucceeds w (tr.length + j) c.step = true) ∨
    (∃ k c, cmds[k]? = some c ∧ c.checked = true ∧
      stepSucceeds w (tr.length + k) c.step = false ∧
      (∀ j c', j < k → cmds[j]? = some c' → c'.checked = true →
        stepSucceeds w (tr.length + j) c'.step = true) ∧
      (runSeq w cmds tr).1 = tr ++ (cmds.take (k + 1)).map Cmd.step ∧
      (runSeq w cmds tr).2 = Except.error (Err.cmdFailed c.step)) := by
  induction cmds generalizing tr with
  | nil =>
    left
    simp [runSeq]
  | cons c rest ih =>
    by_cases hc : (c.checked && !stepSucceeds w tr.length c.step) = true
    · right
      refine ⟨0, c, ?_, ?_, ?_, ?_, ?_, ?_⟩
      · simp
      · exact (Bool.and_eq_true _ _).mp hc |>.1
      · have := (Bool.and_eq_true _ _).mp hc |>.2
        simpa using this
      · intro j c' hj
        omega
      · simp [runSeq, hc]
      · simp [runSeq, hc]
    · have hcont : runSeq w (c :: rest) tr = runSeq w rest (tr ++ [c.step]) := by
        simp [runSeq, hc]
      have hsucc : c.checked = true → stepSucceeds w tr.length c.step = true := by
        intro hch
        by_contra hns
        apply hc
        simp [hch, Bool.not_eq_true] at hns ⊢
        simp [hns]
      rcases ih (tr ++ [c.step]) with ⟨hok, htr, hall⟩ | ⟨k, ck, hget, hch, hfail, hpre, htr, herr⟩
      · left
        refine ⟨by rw [hcont]; exact hok, ?_, ?_⟩
        · rw [hcont, htr]
          simp
        · intro j cj hget hch
          cases j with
          | zero =>
            simp at hget
            subst hget
            simpa using hsucc hch
          | succ j =>
            have := hall j cj (by simpa using hget) hch
            simp at this ⊢
            convert this using 2
            omega
      · right
        refine ⟨k + 1, ck, by simpa using hget, hch, ?_, ?_, ?_, ?_⟩
        · have harith : tr.length + (k + 1) = (tr ++ [c.step]).length + k := by
            simp
            omega
          rw [harith]
          exact hfail
        · intro j cj hj hget2 hch2
          cases j with
          | zero =>
            simp at hget2
            subst hget2
            simpa using hsucc hch2
          | succ j =>
            have := hpre j cj (by omega) (by simpa using hget2) hch2
            have harith : tr.length + (j + 1) = (tr ++ [c.step]).length + j := by
              simp
              omega
            rw [harith]
            exact this
        · rw [hcont, htr]
          simp
        · rw [hcont]
          exact herr

/-- Characterisation of `Char.isUpper` through code points. -/
theorem isUpper_iff (d : Char) : d.isUpper = true ↔ 65 ≤ d.toNat ∧ d.toNat ≤ 90 := by
  simp only [Char.isUpper, Bool.and_eq_true, decide_eq_true_iff, UInt32.le_def, BitVec.le_def]
  constructor
  · intro h
    exact ⟨h.1, h.2⟩
  · intro h
    exact ⟨h.1, h.2⟩

/-- Lowercasing a character never yields an uppercase character. -/
theorem isUpper_toLower_false (c : Char) : (Char.toLower c).isUpper = false := by
  rw [Bool.eq_false_iff]
  intro hup
  rw [isUpper_iff] at hup
  by_cases h : c.toNat ≥ 65 ∧ c.toNat ≤ 90
  · have hv : (c.toNat + 32).isValidChar := by
      left
      have := h.2
      omega
    have heq : Char.toLower c = Char.ofNat (c.toNat + 32) := by
      unfold Char.toLower
      simp [h]
    have hval : (Char.ofNat (c.toNat + 32)).toNat = c.toNat + 32 := by
      unfold Char.ofNat
      rw [dif_pos hv]
      rfl
    rw [heq, hval] at hup
    omega
  · have heq : Char.toLower c = c := by
      unfold Char.toLower
      simp [h]
    rw [heq] at hup
    exact h ⟨hup.1, hup.2⟩

/-- No character of a `pyLower` result is uppercase. -/
theorem pyLower_no_upper (s : String) : ∀ c ∈ (pyLower s).data, c.isUpper = false := by
  intro c hc
  simp only [pyLower, List.mem_map] at hc
  obtain ⟨d, _, rfl⟩ := hc
  exact isUpper_toLower_false d

/-- Checked commands of a run are exactly the non-`pull`, non-secondary-push
ones: the source passes `check=True` everywhere except `docker pull`
(line 31) and the additional-tag `docker push` (lines 169-171). -/
theorem planned_checked {cfg : Config} {w : World} {p : Plan} {c : Cmd}
    (hc : c ∈ plannedCmds cfg w p) :
    c.checked = !(c.step.isPull || c.step.isPushExtra) := by
  unfold plannedCmds at hc
  simp only [List.append_assoc] at hc
  rcases List.mem_append.mp hc with h | h
  · split at h
    · obtain rfl := List.mem_singleton.mp h
      rfl
    · exact absurd h (List.not_mem_nil c)
  · rcases List.mem_append.mp h with h | h
    · rcases List.mem_cons.mp h with rfl | h
      · rfl
      · rcases List.mem_cons.mp h with rfl | h
        · rfl
        · exact absurd h (List.not_mem_nil c)
    · rcases List.mem_append.mp h with h | h
      · split at h
        · obtain rfl := List.mem_singleton.mp h
          rfl
        · exact absurd h (List.not_mem_nil c)
      · split at h
        · rcases List.mem_cons.mp h with rfl | h
          · rfl
          · obtain ⟨t, ht2, h⟩ := List.mem_flatMap.mp h
            unfold tagCmds at h
            rcases List.mem_cons.mp h with rfl | h
            · rfl
            · rcases List.mem_cons.mp h with rfl | h
              · rfl
              · exact absurd h (List.not_mem_nil c)
        · exact absurd h (List.not_mem_nil c)

/-- Appending two phase-sorted step lists stays phase-sorted when a bound
`k` separates them. -/
theorem pairwise_phase_append (k : Nat) {l₁ l₂ : List Step}
    (h₁ : l₁.Pairwise (fun a b => phase a ≤ phase b)) (hub : ∀ a ∈ l₁, phase a ≤ k)
    (h₂ : l₂.Pairwise (fun a b => phase a ≤ phase b)) (hlb : ∀ b ∈ l₂, k ≤ phase b) :
    (l₁ ++ l₂).Pairwise (fun a b => phase a ≤ phase b) := by
  rw [List.pairwise_append]
  exact ⟨h₁, h₂, fun a ha b hb => le_trans (hub a ha) (hlb b hb)⟩

/-- Every step of the additional-tag block belongs to the push phase. -/
theorem phase_tagSteps {cfg : Config} {p : Plan} :
    ∀ s ∈ ((additional_tags cfg).flatMap (tagCmds p)).map Cmd.step, phase s = 4 := by
  intro s hs
  simp only [List.mem_map, List.mem_flatMap, tagCmds] at hs
  obtain ⟨c, ⟨t, ht, hc⟩, rfl⟩ := hs
  rcases List.mem_cons.mp hc with rfl | hc
  · rfl
  · rcases List.mem_cons.mp hc with rfl | hc
    · rfl
    · exact absurd hc (List.not_mem_nil c)

/-- The planned command sequence is phase-sorted: login, then pull, then
build, then test, then the push-phase commands. -/
theorem planned_phase_sorted (cfg : Config) (w : World) (p : Plan) :
    ((plannedCmds cfg w p).map Cmd.step).Pairwise (fun a b => phase a ≤ phase b) := by
  have h4 : ∀ s, phase s ≤ 4 := fun s => by cases s <;> simp [phase]
  unfold plannedCmds
  simp only [List.map_append]
  apply pairwise_phase_append 4
  · apply pairwise_phase_append 3
    · apply pairwise_phase_append 1
      · split <;> simp [List.Pairwise]
      · intro a ha
        split at ha <;> simp at ha
        subst ha
        simp [phase]
      · simp [List.pairwise_cons, phase]
      · intro b hb
        simp at hb
        rcases hb with rfl | rfl <;> simp [phase]
    · intro a ha
      rcases List.mem_append.mp ha with h | h
      · split at h <;> simp at h
        subst h
        simp [phase]
      · simp at h
        rcases h with rfl | rfl <;> simp [phase]
    · split <;> simp [List.Pairwise]
    · intro b hb
      split at hb <;> simp at hb
      subst hb
      simp [phase]
  · intro a _
    exact h4 a
  · split
    · simp only [List.map_cons]
      rw [List.pairwise_cons]
      constructor
      · intro b hb
        rw [phase_tagSteps b hb]
        simp [phase]
      · apply List.pairwise_of_forall_mem_list
        intro a ha b hb
        rw [phase_tagSteps a ha, phase_tagSteps b hb]
    · simp
  · intro b hb
    split at hb
    · simp only [List.map_cons, List.mem_cons] at hb
      rcases hb with rfl | hb
      · simp [phase]
      · rw [phase_tagSteps b hb]
    · simp at hb

/-- The emitted trace is a take-prefix of the planned command steps. -/
theorem runSeq_trace_take (w : World) (cmds : List Cmd) :
    ∃ k, (runSeq w cmds []).1 = (cmds.take k).map Cmd.step := by
  rcases runSeq_char w cmds [] with ⟨_, htr, _⟩ | ⟨k, c, _, _, _, _, htr, _⟩
  · exact ⟨cmds.length, by simpa [List.take_length] using htr⟩
  · exact ⟨k + 1, by simpa using htr⟩

/-- The emitted trace is a sublist of the planned command steps. -/
theorem runSeq_trace_sublist (w : World) (cmds : List Cmd) :
    (runSeq w cmds []).1.Sublist (cmds.map Cmd.step) := by
  obtain ⟨k, hk⟩ := runSeq_trace_take w cmds
  rw [hk]
  exact (List.take_sublist k cmds).map Cmd.step

/-- A run that exits nonzero failed on a checked command, and that command
is the last one of the trace: nothing runs after a fatal failure. -/
theorem runSeq_error_inv {w : World} {cmds : List Cmd} {e : Err}
    (h : (runSeq w cmds []).2 = Except.error e) :
    ∃ c pre, e = Err.cmdFailed c.step ∧ c ∈ cmds ∧ c.checked = true ∧
      (runSeq w cmds []).1 = pre ++ [c.step] := by
  rcases runSeq_char w cmds [] with ⟨hok, _, _⟩ | ⟨k, c, hget, hch, _, _, htr, herr⟩
  · rw [hok] at h
    cases h
  · rw [herr] at h
    injection h with h2
    refine ⟨c, (cmds.take k).map Cmd.step, h2.symm, ?_, hch, ?_⟩
    · exact List.getElem?_mem hget
    · rw [htr, List.take_succ, hget]
      simp

/-- A run that exits zero ran every planned command. -/
theorem runSeq_ok_trace {w : World} {cmds : List Cmd}
    (h : (runSeq w cmds []).2 = Except.ok ()) :
    (runSeq w cmds []).1 = cmds.map Cmd.step := by
  rcases runSeq_char w cmds [] with ⟨_, htr, _⟩ | ⟨_, _, _, _, _, _, _, herr⟩
  · simpa using htr
  · rw [herr] at h
    cases h

/-- When every planned command succeeds the run exits zero after running
all of them. -/
theorem runSeq_all_ok {w : World} {cmds : List Cmd}
    (hs : ∀ j c, cmds[j]? = some c → stepSucceeds w j c.step = true) :
    (runSeq w cmds []).2 = Except.ok () ∧ (runSeq w cmds []).1 = cmds.map Cmd.step := by
  rcases runSeq_char w cmds [] with ⟨hok, htr, _⟩ | ⟨k, c, hget, _, hfail, _, _, _⟩
  · exact ⟨hok, by simpa using htr⟩
  · have hsk := hs k c hget
    simp only [List.length_nil, Nat.zero_add] at hfail
    rw [hsk] at hfail
    cases hfail

/-- When the command at position `i` is checked and fails while every
earlier checked command succeeds, the run stops right there and reports
that command. -/
theorem runSeq_fail_at {w : World} {cmds : List Cmd} {i : Nat} {c : Cmd}
    (hget : cmds[i]? = some c) (hch : c.checked = true)
    (hfail : stepSucceeds w i c.step = false)
    (hbefore : ∀ j c', j < i → cmds[j]? = some c' → c'.checked = true →
      stepSucceeds w j c'.step = true) :
    (runSeq w cmds []).1 = (cmds.take (i + 1)).map Cmd.step ∧
    (runSeq w cmds []).2 = Except.error (Err.cmdFailed c.step) := by
  rcases runSeq_char w cmds [] with ⟨_, _, hall⟩ | ⟨k, ck, hgetk, hchk, hfailk, hprek, htr, herr⟩
  · have := hall i c hget hch
    simp only [List.length_nil, Nat.zero_add] at this
    rw [this] at hfail
    cases hfail
  · simp only [List.length_nil, Nat.zero_add] at hfailk hprek
    have hki : k = i := by
      rcases Nat.lt_trichotomy k i with hlt | heq | hgt
      · have := hbefore k ck hlt hgetk hchk
        rw [this] at hfailk
        cases hfailk
      · exact heq
      · have := hprek i c hgt hget hch
        rw [this] at hfail
        cases hfail
    subst hki
    rw [hgetk] at hget
    injection hget with hget
    subst hget
    exact ⟨by simpa using htr, herr⟩

/-- The run is insensitive to the exit status of unchecked commands: two
worlds that agree on the outcome of every checked position produce the
same trace and the same exit behaviour. -/
theorem runSeq_congr {w₁ w₂ : World} (cmds : List Cmd) (tr : List Step)
    (h : ∀ j c, cmds[j]? = some c → c.checked = true →
      stepSucceeds w₁ (tr.length + j) c.step = stepSucceeds w₂ (tr.length + j) c.step) :
    runSeq w₁ cmds tr = runSeq w₂ cmds tr := by
  induction cmds generalizing tr with
  | nil => simp [runSeq]
  | cons c rest ih =>
    have hrest : ∀ j c', rest[j]? = some c' → c'.checked = true →
        stepSucceeds w₁ ((tr ++ [c.step]).length + j) c'.step =
        stepSucceeds w₂ ((tr ++ [c.step]).length + j) c'.step := by
      intro j c' hget hch
      have := h (j + 1) c' (by simpa using hget) hch
      have harith : tr.length + (j + 1) = (tr ++ [c.step]).length + j := by
        simp
        omega
      rw [harith] at this
      exact this
    by_cases hch : c.checked = true
    · have h0 : stepSucceeds w₁ tr.length c.step = stepSucceeds w₂ tr.length c.step := by
        simpa using h 0 c (by simp) hch
      simp only [runSeq, h0]
      split
      · rfl
      · exact ih (tr ++ [c.step]) hrest
    · simp only [runSeq, Bool.not_eq_true] at hch ⊢
      rw [hch]
      simp only [Bool.false_and, Bool.false_eq_true, if_false]
      exact ih (tr ++ [c.step]) hrest

/-- Inversion of membership in the planned command list: every command is
one of the seven invocations of lines 136-172, under its guard. -/
theorem mem_planned_inv {cfg : Config} {w : World} {p : Plan} {c : Cmd}
    (hc : c ∈ plannedCmds cfg w p) :
    (loginNeeded cfg p = true ∧
      c = ⟨Step.login cfg.docker_registry (cfg.docker_username.getD "")
        (cfg.docker_password.getD ""), true⟩) ∨
    c = ⟨Step.pull p.full_image_name, false⟩ ∨
    c = ⟨Step.build p.notebook_user p.repo_dir p.full_image_name p.image_name
      p.appendix p.src_dir, true⟩ ∨
    (w.testsDir (p.src_dir ++ "/image-tests") = true ∧
      c = ⟨Step.test p.repo_dir p.full_image_name, true⟩) ∨
    (p.push = true ∧
      (c = ⟨Step.pushPrimary p.full_image_name, true⟩ ∨
       ∃ t ∈ additional_tags cfg,
         c = ⟨Step.tag p.full_image_name (p.image_name ++ ":" ++ t), true⟩ ∨
         c = ⟨Step.pushExtra (p.image_name ++ ":" ++ t), false⟩)) := by
  unfold plannedCmds at hc
  simp only [List.append_assoc] at hc
  rcases List.mem_append.mp hc with h | h
  · split at h
    · exact Or.inl ⟨by assumption, List.mem_singleton.mp h⟩
    · exact absurd h (List.not_mem_nil c)
  · rcases List.mem_append.mp h with h | h
    · rcases List.mem_cons.mp h with rfl | h
      · exact Or.inr (Or.inl rfl)
      · rcases List.mem_cons.mp h with rfl | h
        · exact Or.inr (Or.inr (Or.inl rfl))
        · exact absurd h (List.not_mem_nil c)
    · rcases List.mem_append.mp h with h | h
      · split at h
        · exact Or.inr (Or.inr (Or.inr (Or.inl ⟨by assumption, List.mem_singleton.mp h⟩)))
        · exact absurd h (List.not_mem_nil c)
      · split at h
        · refine Or.inr (Or.inr (Or.inr (Or.inr ⟨by assumption, ?_⟩)))
          rcases List.mem_cons.mp h with rfl | h
          · exact Or.inl rfl
          · obtain ⟨t, ht2, h⟩ := List.mem_flatMap.mp h
            unfold tagCmds at h
            refine Or.inr ⟨t, ht2, ?_⟩
            rcases List.mem_cons.mp h with rfl | h
            · exact Or.inl rfl
            · rcases List.mem_cons.mp h with rfl | h
              · exact Or.inr rfl
              · exact absurd h (List.not_mem_nil c)
        · exact absurd h (List.not_mem_nil c)

/-- The appendix stage only fails with a file-not-found error. -/
theorem appendixOf_error {cfg : Config} {fs : String → Option String} {e : Err}
    (h : appendixOf cfg fs = Except.error e) : ∃ path, e = Err.fileNotFound path := by
  unfold appendixOf at h
  split at h
  · split at h
    · cases h
    · injection h with h2
      exact ⟨_, h2.symm⟩
  · cases h

/-- The repository-name stage only fails for a missing `GITHUB_REPOSITORY`. -/
theorem repoNameOf_error {cfg : Config} {e : Err}
    (h : repoNameOf cfg = Except.error e) : e = Err.keyError "GITHUB_REPOSITORY" := by
  unfold repoNameOf at h
  split at h
  · cases h
  · injection h with h2
    exact h2.symm

/-- The image-name stage only fails for a missing `GITHUB_ACTOR`. -/
theorem imageNameOf_error {cfg : Config} {r : String} {e : Err}
    (h : imageNameOf cfg r = Except.error e) : e = Err.keyError "GITHUB_ACTOR" := by
  unfold imageNameOf at h
  split at h
  · next heq =>
    split at heq
    · cases heq
    · split at heq
      · split at heq
        · cases heq
        · injection heq with h2
          injection h with h3
          rw [← h3, ← h2]
      · cases heq
  · cases h

/-- The commit-identifier stage only fails for a missing `GITHUB_SHA`. -/
theorem shaOf_error {cfg : Config} {e : Err}
    (h : shaOf cfg = Except.error e) : e = Err.keyError "GITHUB_SHA" := by
  unfold shaOf at h
  split at h
  · cases h
  · injection h with h2
    exact h2.symm

/-- Configuration resolution never reports an external-command failure:
its errors all precede the first external call. -/
theorem mkPlan_error_not_cmd {cfg : Config} {fs : String → Option String} {cwd : String}
    {e : Err} (h : mkPlan cfg fs cwd = Except.error e) : ∀ s, e ≠ Err.cmdFailed s := by
  intro s
  unfold mkPlan at h
  split at h
  · next ha =>
    injection h with h2
    obtain ⟨path, rfl⟩ := appendixOf_error (h2 ▸ ha)
    intro hcontra
    cases hcontra
  · split at h
    · next hr =>
      injection h with h2
      have := repoNameOf_error (h2 ▸ hr)
      rw [this]
      intro hcontra
      cases hcontra
    · split at h
      · next hi =>
        injection h with h2
        have := imageNameOf_error (h2 ▸ hi)
        rw [this]
        intro hcontra
        cases hcontra
      · split at h
        · next hs =>
          injection h with h2
          have := shaOf_error (h2 ▸ hs)
          rw [this]
          intro hcontra
          cases hcontra
        · cases h

/-- The image name the code derives coincides with the specification's
rule, with the actor read from `GITHUB_ACTOR` when needed. -/
theorem imageNameOf_ok_spec {cfg : Config} {r i : String}
    (hi : imageNameOf cfg r = Except.ok i) :
    i = specImageName cfg (cfg.github_actor.getD "") r := by
  unfold imageNameOf at hi
  split at hi
  · cases hi
  · next im0 heq =>
    injection hi with hi
    subst hi
    unfold specImageName
    split at heq
    · next htr =>
      injection heq with heq
      subst heq
      by_cases hreg : truthy cfg.docker_registry = true <;>
        simp [htr, hreg, String.append_assoc]
    · next htr =>
      split at heq
      · next huser =>
        split at heq
        · next actor hact =>
          injection heq with heq
          subst heq
          by_cases hreg : truthy cfg.docker_registry = true <;>
            simp [htr, hreg, huser, hact, String.append_assoc]
        · cases heq
      · next u huser =>
        injection heq with heq
        subst heq
        by_cases hreg : truthy cfg.docker_registry = true <;>
          simp [htr, hreg, huser, String.append_assoc]

/-- The first planned command is always started: nothing can abort the
run before it. -/
theorem runSeq_mem_head {w : World} (c : Cmd) (rest : List Cmd) :
    c.step ∈ (runSeq w (c :: rest) []).1 := by
  rcases runSeq_char w (c :: rest) [] with ⟨_, htr, _⟩ | ⟨k, ck, _, _, _, _, htr, _⟩
  · rw [htr]
    simp
  · rw [htr]
    simp [List.take_succ_cons]

/-- Unfolding of `run` on a successfully derived plan. -/
theorem run_fst_ok {cfg : Config} {fs : String → Option String} {cwd : String} {w : World}
    {p : Plan} (hmk : mkPlan cfg fs cwd = Except.ok p) :
    (run cfg fs cwd w).1 = (runSeq w (plannedCmds cfg w p) []).1 ∧
    (run cfg fs cwd w).2 = (runSeq w (plannedCmds cfg w p) []).2 := by
  unfold run
  rw [hmk]
  exact ⟨rfl, rfl⟩

/-- Unfolding of `run` when configuration resolution fails: no external
command is started. -/
theorem run_err {cfg : Config} {fs : String → Option String} {cwd : String} {w : World}
    {e : Err} (hmk : mkPlan cfg fs cwd = Except.error e) :
    (run cfg fs cwd w).1 = [] ∧ (run cfg fs cwd w).2 = Except.error e := by
  unfold run
  rw [hmk]
  exact ⟨rfl, rfl⟩

/-- In a world whose command at position `n` succeeds, every step except a
registry-less login succeeds there. -/
theorem stepSucceeds_not_login_none {w : World} {n : Nat} {s : Step}
    (hw : w.exec n = true) (hs : ∀ u pw, s ≠ Step.login none u pw) :
    stepSucceeds w n s = true := by
  cases s with
  | login ropt u pw =>
    cases ropt with
    | none => exact absurd rfl (hs u pw)
    | some r => exact hw
  | pull i => exact hw
  | build a b c d e f => exact hw
  | test a b => exact hw
  | pushPrimary i => exact hw
  | tag a b => exact hw
  | pushExtra i => exact hw

/-- Congruence for whole runs: two configurations whose derivation stages,
credential truthiness (and value, when a login can occur), registry and
additional tags agree produce identical runs. -/
theorem run_congr {cfg₁ cfg₂ : Config} (fs : String → Option String) (cwd : String)
    (w : World)
    (ha : appendixOf cfg₁ fs = appendixOf cfg₂ fs)
    (hrn : repoNameOf cfg₁ = repoNameOf cfg₂)
    (hi : ∀ r, imageNameOf cfg₁ r = imageNameOf cfg₂ r)
    (hn : notebookUserOf cfg₁ = notebookUserOf cfg₂)
    (hd : repoDirOf cfg₁ = repoDirOf cfg₂)
    (hsha : shaOf cfg₁ = shaOf cfg₂)
    (hnp : truthy cfg₁.no_push = truthy cfg₂.no_push)
    (huser : cfg₁.docker_username = cfg₂.docker_username)
    (hpassT : truthy cfg₁.docker_password = truthy cfg₂.docker_password)
    (hpassV : truthy cfg₁.docker_password = true →
      cfg₁.docker_password = cfg₂.docker_password)
    (hreg : cfg₁.docker_registry = cfg₂.docker_registry)
    (htags : additional_tags cfg₁ = additional_tags cfg₂) :
    run cfg₁ fs cwd w = run cfg₂ fs cwd w := by
  have hmk : mkPlan cfg₁ fs cwd = mkPlan cfg₂ fs cwd := by
    unfold mkPlan
    simp only [ha, hrn, hi, hn, hd, hsha, hnp]
  unfold run
  rw [hmk]
  cases mkPlan cfg₂ fs cwd with
  | error e => rfl
  | ok p =>
    show runSeq w (plannedCmds cfg₁ w p) [] = runSeq w (plannedCmds cfg₂ w p) []
    have hln : loginNeeded cfg₁ p = loginNeeded cfg₂ p := by
      unfold loginNeeded
      rw [hpassT, huser]
    have hplan : plannedCmds cfg₁ w p = plannedCmds cfg₂ w p := by
      unfold plannedCmds
      rw [hln, htags]
      by_cases hl : loginNeeded cfg₂ p = true
      · have hpass : cfg₁.docker_password = cfg₂.docker_password := by
          apply hpassV
          rw [hpassT]
          unfold loginNeeded at hl
          rw [Bool.and_eq_true, Bool.and_eq_true] at hl
          exact hl.1.2
        rw [if_pos hl, if_pos hl, hreg, huser, hpass]
      · rw [if_neg hl, if_neg hl]
    rw [hplan]

/-- C1, counterexample: the claim says deriving the full image name fails
whenever the commit identifier is shorter than 12 characters.  With the
3-character identifier `abc` the code derives a full plan whose
`full_image_name` is `octocat/hello-world:abc`: no failure occurs. -/
theorem C1_counterexample :
    ("abc" : String).length < 12 ∧
    mkPlan cfgShortSha fsEmpty "/workdir" = Except.ok planShortSha ∧
    planShortSha.full_image_name = "octocat/hello-world:abc" :=
  ⟨by decide, rfl, rfl⟩

/-- C1, amended: deriving the full image name fails (with the `KeyError`
that the specification's `ConfigError` stands for) exactly when the commit
identifier is absent; whenever a plan is produced the identifier is
present and `full_image_name` is the image name, a colon, and the first
`min(12, length)` characters of the identifier - identifiers shorter than
12 characters are used whole rather than rejected. -/
theorem C1_sha_failure (cfg : Config) (fs : String → Option String) (cwd : String) :
    (shaOf cfg = Except.error (Err.keyError "GITHUB_SHA") ↔ cfg.github_sha = none) ∧
    (cfg.github_sha = none → ∀ p, mkPlan cfg fs cwd ≠ Except.ok p) ∧
    (∀ p, mkPlan cfg fs cwd = Except.ok p →
      ∃ s, cfg.github_sha = some s ∧
        p.full_image_name = p.image_name ++ ":" ++ pyTake s 12) := by
  refine ⟨?_, ?_, ?_⟩
  · unfold shaOf
    cases h : cfg.github_sha <;> simp
  · intro hnone p hp
    obtain ⟨a, r, i, s, ha, hr, hi, hs, _⟩ := mkPlan_ok_iff.mp hp
    unfold shaOf at hs
    rw [hnone] at hs
    cases hs
  · intro p hp
    obtain ⟨a, r, i, s, ha, hr, hi, hs, rfl⟩ := mkPlan_ok_iff.mp hp
    unfold shaOf at hs
    cases hsha : cfg.github_sha with
    | none =>
      rw [hsha] at hs
      cases hs
    | some t =>
      rw [hsha] at hs
      injection hs with hs
      refine ⟨t, rfl, ?_⟩
      show i ++ ":" ++ s = i ++ ":" ++ pyTake t 12
      rw [hs]

/-- C1, witness: the amended theorem applied to the concrete short-sha
configuration. -/
theorem C1_witness :
    ∃ s, cfgShortSha.github_sha = some s ∧
      planShortSha.full_image_name = planShortSha.image_name ++ ":" ++ pyTake s 12 :=
  (C1_sha_failure cfgShortSha fsEmpty "/workdir").2.2 planShortSha rfl

/-- C2, counterexample: the claim says the command sequence is ordered
pull before login.  In this fully credentialed run the first emitted
command is the login (index 0) and the pull comes second (index 1): the
code logs in before pulling (lines 136-139). -/
theorem C2_counterexample :
    (run cfgC9 fsEmpty "/workdir" wAllOk).1 = [
      Step.login (some "registry.io") "user" "hunter2",
      Step.pull "registry.io/user/hello-world:abcdef123456",
      Step.build "jovyan" "/home/jovyan" "registry.io/user/hello-world:abcdef123456"
        "registry.io/user/hello-world" none "/workdir",
      Step.test "/home/jovyan" "registry.io/user/hello-world:abcdef123456",
      Step.pushPrimary "registry.io/user/hello-world:abcdef123456",
      Step.tag "registry.io/user/hello-world:abcdef123456" "registry.io/user/hello-world:latest",
      Step.pushExtra "registry.io/user/hello-world:latest"] ∧
    (run cfgC9 fsEmpty "/workdir" wAllOk).1[0]? =
      some (Step.login (some "registry.io") "user" "hunter2") ∧
    (run cfgC9 fsEmpty "/workdir" wAllOk).1[1]? =
      some (Step.pull "registry.io/user/hello-world:abcdef123456") :=
  ⟨by decide, by decide, by decide⟩

/-- C2, amended: the emitted command sequence is ordered login, then pull,
then build, then test, then the push-phase commands, strictly
sequentially (the trace's phases never decrease); a fatal command failure
ends the run immediately (the failed step is the trace's last) and is
never a pull or a secondary-tag push - those two are the only external
commands whose failure is swallowed; when the run exits zero every
planned command was started in order. -/
theorem C2_order_gating (cfg : Config) (fs : String → Option String) (cwd : String)
    (w : World) :
    (run cfg fs cwd w).1.Pairwise (fun a b => phase a ≤ phase b) ∧
    (∀ s, (run cfg fs cwd w).2 = Except.error (Err.cmdFailed s) →
      (∃ pre, (run cfg fs cwd w).1 = pre ++ [s]) ∧
      s.isPull = false ∧ s.isPushExtra = false) ∧
    (∀ p, mkPlan cfg fs cwd = Except.ok p →
      (run cfg fs cwd w).2 = Except.ok () →
      (run cfg fs cwd w).1 = (plannedCmds cfg w p).map Cmd.step) := by
  refine ⟨?_, ?_, ?_⟩
  · cases hmk : mkPlan cfg fs cwd with
    | error e =>
      rw [(run_err hmk).1]
      exact List.Pairwise.nil
    | ok p =>
      rw [(run_fst_ok hmk).1]
      exact List.Pairwise.sublist (runSeq_trace_sublist w (plannedCmds cfg w p))
        (planned_phase_sorted cfg w p)
  · intro s herr
    cases hmk : mkPlan cfg fs cwd with
    | error e =>
      rw [(run_err hmk).2] at herr
      injection herr with h3
      exact absurd h3 (mkPlan_error_not_cmd hmk s)
    | ok p =>
      rw [(run_fst_ok hmk).2] at herr
      rw [(run_fst_ok hmk).1]
      obtain ⟨c, pre, heq, hcmem, hch, htr⟩ := runSeq_error_inv herr
      injection heq with heq
      subst heq
      refine ⟨⟨pre, htr⟩, ?_, ?_⟩ <;>
      · have hchk := planned_checked hcmem
        rw [hch] at hchk
        cases hpull : c.step.isPull <;> cases hpe : c.step.isPushExtra <;>
          rw [hpull, hpe] at hchk <;> first | rfl | cases hchk
  · intro p hmk hok
    rw [(run_fst_ok hmk).2] at hok
    rw [(run_fst_ok hmk).1]
    exact runSeq_ok_trace hok

/-- C2, witness: the amended theorem applied to a run whose build (the
command at index 1) fails: the trace ends at the build step. -/
theorem C2_witness :
    (∃ pre, (run cfgBase fsEmpty "/workdir" wFail1).1 = pre ++
      [Step.build "jovyan" "/home/jovyan" "octocat/hello-world:abcdef123456"
        "octocat/hello-world" none "/workdir"]) ∧
    (Step.build "jovyan" "/home/jovyan" "octocat/hello-world:abcdef123456"
      "octocat/hello-world" none "/workdir").isPull = false ∧
    (Step.build "jovyan" "/home/jovyan" "octocat/hello-world:abcdef123456"
      "octocat/hello-world" none "/workdir").isPushExtra = false :=
  (C2_order_gating cfgBase fsEmpty "/workdir" wFail1).2.1
    (Step.build "jovyan" "/home/jovyan" "octocat/hello-world:abcdef123456"
      "octocat/hello-world" none "/workdir") rfl

/-- C3: for every configuration from which a plan is derived, the derived
image name equals the specification's rule - IMAGE_NAME verbatim if
given, else `{actor}/{repo_name}` when DOCKER_USERNAME is absent, else
`{DOCKER_USERNAME}/{repo_name}`, with `{DOCKER_REGISTRY}/` prepended when
given, all lowercased - and the result contains no uppercase character,
for all input casings. -/
theorem C3_image_name {cfg : Config} {fs : String → Option String} {cwd : String} {p : Plan}
    (hp : mkPlan cfg fs cwd = Except.ok p) :
    (∀ repo, cfg.github_repository = some repo →
      p.image_name = specImageName cfg (cfg.github_actor.getD "") (pyLastSegment repo)) ∧
    ∀ c ∈ p.image_name.data, c.isUpper = false := by
  obtain ⟨a, r, i, s, ha, hr, hi, hs, rfl⟩ := mkPlan_ok_iff.mp hp
  constructor
  · intro repo hrep
    unfold repoNameOf at hr
    rw [hrep] at hr
    injection hr with hr
    show i = _
    rw [hr]
    exact imageNameOf_ok_spec hi
  · show ∀ c ∈ i.data, c.isUpper = false
    have := imageNameOf_ok_spec hi
    rw [this]
    unfold specImageName
    exact pyLower_no_upper _

/-- C3, witness: the theorem applied to the mixed-case configuration,
whose derived image name is `ghcr.io/octocat/hello-world`. -/
theorem C3_witness :
    planC3.image_name = specImageName cfgC3 "OctoCat" (pyLastSegment "OctoCat/Hello-World") :=
  (C3_image_name (rfl : mkPlan cfgC3 fsEmpty "/workdir" = Except.ok planC3)).1
    "OctoCat/Hello-World" rfl

/-- C4: for every commit identifier of length at least 12 and every
derived plan, `full_image_name` equals the image name, then `:`, then
exactly the first 12 characters of the identifier. -/
theorem C4_full_image_name {cfg : Config} {fs : String → Option String} {cwd : String}
    {p : Plan} {sha : String} (hp : mkPlan cfg fs cwd = Except.ok p)
    (hsha : cfg.github_sha = some sha) (hlen : 12 ≤ sha.length) :
    p.full_image_name = p.image_name ++ ":" ++ pyTake sha 12 ∧
    (pyTake sha 12).data = sha.data.take 12 ∧ (pyTake sha 12).length = 12 := by
  obtain ⟨a, r, i, s, ha, hr, hi, hs, rfl⟩ := mkPlan_ok_iff.mp hp
  unfold shaOf at hs
  rw [hsha] at hs
  injection hs with hs
  refine ⟨?_, rfl, ?_⟩
  · show i ++ ":" ++ s = i ++ ":" ++ pyTake sha 12
    rw [hs]
  · show (sha.data.take 12).length = 12
    rw [List.length_take]
    have hlen2 : sha.length = sha.data.length := rfl
    omega

/-- C4, witness: the theorem applied to the base configuration and its
16-character commit identifier. -/
theorem C4_witness :
    planBase.full_image_name = planBase.image_name ++ ":" ++ pyTake "abcdef1234567890" 12 ∧
    (pyTake "abcdef1234567890" 12).data = ("abcdef1234567890" : String).data.take 12 ∧
    (pyTake "abcdef1234567890" 12).length = 12 :=
  C4_full_image_name
    (rfl : mkPlan cfgBase fsEmpty "/workdir" = Except.ok planBase) rfl (by decide)

/-- C5: the derived notebook user is `jovyan` when NOTEBOOK_USER is unset
(empty or absent) or when MYBINDERORG_TAG or BINDER_CACHE is set (even if
NOTEBOOK_USER is also set), and is the given NOTEBOOK_USER value
otherwise. -/
theorem C5_notebook_user {cfg : Config} {fs : String → Option String} {cwd : String} {p : Plan}
    (hp : mkPlan cfg fs cwd = Except.ok p) :
    ((truthy cfg.notebook_user = false ∨ truthy cfg.mybinderorg_tag = true ∨
        truthy cfg.binder_cache = true) → p.notebook_user = "jovyan") ∧
    (∀ u, cfg.notebook_user = some u → truthy cfg.notebook_user = true →
      truthy cfg.mybinderorg_tag = false → truthy cfg.binder_cache = false →
      p.notebook_user = u) := by
  obtain ⟨a, r, i, s, ha, hr, hi, hs, rfl⟩ := mkPlan_ok_iff.mp hp
  constructor
  · intro h
    show notebookUserOf cfg = "jovyan"
    unfold notebookUserOf
    rcases h with h | h | h <;> simp [h]
  · intro u hu htu hmy hbc
    show notebookUserOf cfg = u
    unfold notebookUserOf
    rw [hu] at htu ⊢
    simp [htu, hmy, hbc]

/-- C5, witness: with NOTEBOOK_USER=joe but MYBINDERORG_TAG set, the
derived notebook user is `jovyan`. -/
theorem C5_witness : planC5.notebook_user = "jovyan" :=
  (C5_notebook_user
    (rfl : mkPlan cfgC5 fsEmpty "/workdir" = Except.ok planC5)).1
    (Or.inr (Or.inl (by decide)))

/-- C6: when NO_PUSH is set to any non-empty value, the run performs no
registry login, no push and no tag command, regardless of all other
configuration: every emitted command is a pull, a build, or a test. -/
theorem C6_no_push (cfg : Config) (fs : String → Option String) (cwd : String) (w : World)
    (h : truthy cfg.no_push = true) :
    ∀ s ∈ (run cfg fs cwd w).1,
      s.isLogin = false ∧ s.isPush = false ∧ s.isTag = false ∧
      (s.isPull = true ∨ (∃ n r i c ap sd, s = Step.build n r i c ap sd) ∨
        ∃ r i, s = Step.test r i) := by
  intro s hs
  unfold run at hs
  cases hmk : mkPlan cfg fs cwd with
  | error e =>
    rw [hmk] at hs
    exact absurd hs (List.not_mem_nil s)
  | ok p =>
    rw [hmk] at hs
    unfold execPlan at hs
    have hsub := runSeq_trace_sublist w (plannedCmds cfg w p)
    have hmem : s ∈ (plannedCmds cfg w p).map Cmd.step := hsub.subset hs
    obtain ⟨c, hc, rfl⟩ := List.mem_map.mp hmem
    have hpush : p.push = false := by
      obtain ⟨a, r, i, s2, ha, hr, hi, hs2, rfl⟩ := mkPlan_ok_iff.mp hmk
      show (!truthy cfg.no_push) = false
      rw [h]
      rfl
    rcases mem_planned_inv hc with ⟨hl, rfl⟩ | rfl | rfl | ⟨ht, rfl⟩ | ⟨hp2, _⟩
    · unfold loginNeeded at hl
      rw [hpush] at hl
      cases hl
    · exact ⟨rfl, rfl, rfl, Or.inl rfl⟩
    · exact ⟨rfl, rfl, rfl, Or.inr (Or.inl ⟨_, _, _, _, _, _, rfl⟩)⟩
    · exact ⟨rfl, rfl, rfl, Or.inr (Or.inr ⟨_, _, rfl⟩)⟩
    · rw [hpush] at hp2
      cases hp2

/-- C6, witness: the theorem applied to the pull command of a credentialed
run with NO_PUSH set. -/
theorem C6_witness :
    (Step.pull "user/hello-world:abcdef123456").isLogin = false ∧
    (Step.pull "user/hello-world:abcdef123456").isPush = false ∧
    (Step.pull "user/hello-world:abcdef123456").isTag = false ∧
    ((Step.pull "user/hello-world:abcdef123456").isPull = true ∨
      (∃ n r i c ap sd, Step.pull "user/hello-world:abcdef123456" = Step.build n r i c ap sd) ∨
      ∃ r i, Step.pull "user/hello-world:abcdef123456" = Step.test r i) :=
  C6_no_push cfgNoPush fsEmpty "/workdir" wAllOk (by decide)
    (Step.pull "user/hello-world:abcdef123456") (by decide)

/-- C7: when pushing is enabled and the commands succeed, the
additional-tags sequence is `latest` first unless LATEST_TAG_OFF is set,
then the ADDITIONAL_TAG value if provided - in particular
`["latest", "v2"]` for ADDITIONAL_TAG=v2 with LATEST_TAG_OFF unset - and
the trace ends with the primary push followed, for each additional tag
`t`, by the alias `docker tag full_image_name image_name:t` and its push. -/
theorem C7_additional_tags (cfg : Config) (fs : String → Option String) (cwd : String)
    (w : World) (p : Plan) (hp : mkPlan cfg fs cwd = Except.ok p)
    (hpush : p.push = true) (hw : ∀ n, w.exec n = true)
    (hreg : loginNeeded cfg p = true → cfg.docker_registry ≠ none) :
    additional_tags cfg =
      (if truthy cfg.latest_tag_off = false then ["latest"] else []) ++
      (if truthy cfg.additional_tag = true then [cfg.additional_tag.getD ""] else []) ∧
    (truthy cfg.latest_tag_off = false → cfg.additional_tag = some "v2" →
      additional_tags cfg = ["latest", "v2"]) ∧
    ∃ pre,
      (run cfg fs cwd w).1 =
        pre ++ Step.pushPrimary p.full_image_name ::
          (additional_tags cfg).flatMap (fun t =>
            [Step.tag p.full_image_name (p.image_name ++ ":" ++ t),
             Step.pushExtra (p.image_name ++ ":" ++ t)]) := by
  refine ⟨?_, ?_, ?_⟩
  · unfold additional_tags
    cases h1 : truthy cfg.latest_tag_off <;> cases h2 : truthy cfg.additional_tag <;> rfl
  · intro h1 h2
    unfold additional_tags
    rw [h1, h2]
    rfl
  · have hsucc : ∀ j c, (plannedCmds cfg w p)[j]? = some c →
        stepSucceeds w j c.step = true := by
      intro j c hget
      have hcmem := List.getElem?_mem hget
      apply stepSucceeds_not_login_none (hw j)
      intro u pw hcontra
      rcases mem_planned_inv hcmem with ⟨hl, rfl⟩ | rfl | rfl | ⟨_, rfl⟩ |
        ⟨_, rfl | ⟨t, _, rfl | rfl⟩⟩ <;> simp at hcontra
      obtain ⟨h1, h2, h3⟩ := hcontra
      exact hreg hl h1
    obtain ⟨hok, htr⟩ := runSeq_all_ok hsucc
    rw [(run_fst_ok hp).1, htr]
    refine ⟨((if loginNeeded cfg p = true then
        [⟨Step.login cfg.docker_registry (cfg.docker_username.getD "")
          (cfg.docker_password.getD ""), true⟩]
      else []) ++
      [⟨Step.pull p.full_image_name, false⟩,
       ⟨Step.build p.notebook_user p.repo_dir p.full_image_name p.image_name
         p.appendix p.src_dir, true⟩] ++
      (if w.testsDir (p.src_dir ++ "/image-tests") = true then
        [⟨Step.test p.repo_dir p.full_image_name, true⟩]
      else []) : List Cmd).map Cmd.step, ?_⟩
    unfold plannedCmds
    rw [hpush]
    simp only [if_true, List.map_append, List.map_cons, List.map_flatMap]
    congr 1

/-- C7, witness: the theorem applied to the ADDITIONAL_TAG=v2
configuration in an all-success world. -/
theorem C7_witness :
    additional_tags cfgC7 = ["latest", "v2"] ∧
    ∃ pre, (run cfgC7 fsEmpty "/workdir" wNoTests).1 =
      pre ++ Step.pushPrimary planBase.full_image_name ::
        (additional_tags cfgC7).flatMap (fun t =>
          [Step.tag planBase.full_image_name (planBase.image_name ++ ":" ++ t),
           Step.pushExtra (planBase.image_name ++ ":" ++ t)]) := by
  have h := C7_additional_tags cfgC7 fsEmpty "/workdir" wNoTests planBase rfl rfl
    (fun _ => rfl) (fun hl => absurd hl (by decide))
  exact ⟨h.2.1 (by decide) rfl, h.2.2⟩

/-- C8: a failing `docker tag` for an additional tag is fatal - the run
reports that command and stops right after it - whereas the run's exit
behaviour is never attributable to a secondary-tag push or a pull (the
only two unchecked commands), and the whole run is unchanged under any
reassignment of the exit statuses of unchecked commands. -/
theorem C8_tag_fatal (cfg : Config) (fs : String → Option String) (cwd : String) (w : World) :
    (∀ i a b, (run cfg fs cwd w).1[i]? = some (Step.tag a b) → w.exec i = false →
      (run cfg fs cwd w).2 = Except.error (Err.cmdFailed (Step.tag a b)) ∧
      (run cfg fs cwd w).1.length = i + 1) ∧
    (∀ x, (run cfg fs cwd w).2 ≠ Except.error (Err.cmdFailed (Step.pushExtra x)) ∧
      (run cfg fs cwd w).2 ≠ Except.error (Err.cmdFailed (Step.pull x))) ∧
    (∀ w2 : World, w.testsDir = w2.testsDir →
      (∀ p j c, mkPlan cfg fs cwd = Except.ok p →
        (plannedCmds cfg w p)[j]? = some c → c.checked = true → w.exec j = w2.exec j) →
      run cfg fs cwd w = run cfg fs cwd w2) := by
  refine ⟨?_, ?_, ?_⟩
  · intro i a b hget hfail
    cases hmk : mkPlan cfg fs cwd with
    | error e =>
      rw [(run_err hmk).1] at hget
      cases hget
    | ok p =>
      rw [(run_fst_ok hmk).1] at hget ⊢
      rw [(run_fst_ok hmk).2]
      rcases runSeq_char w (plannedCmds cfg w p) [] with ⟨hok, htr, hall⟩ |
        ⟨k, ck, hgetk, hchk, hfailk, hprek, htr, herr⟩
      · rw [htr] at hget
        simp only [List.nil_append, List.getElem?_map] at hget
        cases hc : (plannedCmds cfg w p)[i]? with
        | none =>
          rw [hc] at hget
          cases hget
        | some c =>
          rw [hc] at hget
          injection hget with hstep
          have hcmem := List.getElem?_mem hc
          have hchk2 : c.checked = true := by
            rw [planned_checked hcmem, hstep]
            rfl
          have hsucc := hall i c hc hchk2
          simp only [List.length_nil, Nat.zero_add] at hsucc
          rw [hstep] at hsucc
          have : w.exec i = true := hsucc
          rw [hfail] at this
          cases this
      · rw [htr] at hget
        simp only [List.nil_append, List.getElem?_map] at hget
        simp only [List.length_nil, Nat.zero_add] at hfailk hprek
        cases hc : ((plannedCmds cfg w p).take (k + 1))[i]? with
        | none =>
          rw [hc] at hget
          cases hget
        | some c =>
          rw [hc] at hget
          injection hget with hstep
          have hik : i < k + 1 := by
            by_contra hcon
            rw [List.getElem?_eq_none (by
              rw [List.length_take]
              omega)] at hc
            cases hc
          have hci : (plannedCmds cfg w p)[i]? = some c := by
            rw [← List.getElem?_take_of_lt hik]
            exact hc
          have hcmem := List.getElem?_mem hci
          have hchk2 : c.checked = true := by
            rw [planned_checked hcmem, hstep]
            rfl
          rcases Nat.lt_or_ge i k with hlt | hge
          · have hsucc := hprek i c hlt hci hchk2
            rw [hstep] at hsucc
            have : w.exec i = true := hsucc
            rw [hfail] at this
            cases this
          · have hik2 : i = k := by omega
            subst hik2
            rw [hci] at hgetk
            injection hgetk with hck
            subst hck
            constructor
            · rw [herr, hstep]
            · rw [htr]
              simp only [List.nil_append, List.length_map, List.length_take]
              have : i < (plannedCmds cfg w p).length := by
                rw [List.getElem?_eq_some_iff] at hci
                exact hci.1
              omega
  · intro x
    constructor <;>
    · intro herr
      cases hmk : mkPlan cfg fs cwd with
      | error e =>
        rw [(run_err hmk).2] at herr
        injection herr with h2
        exact absurd h2 (mkPlan_error_not_cmd hmk _)
      | ok p =>
        rw [(run_fst_ok hmk).2] at herr
        obtain ⟨c, pre, heq, hcmem, hch, htr⟩ := runSeq_error_inv herr
        injection heq with heq
        rw [planned_checked hcmem, ← heq] at hch
        cases hch
  · intro w2 htd hexec
    cases hmk : mkPlan cfg fs cwd with
    | error e =>
      unfold run
      rw [hmk]
    | ok p =>
      unfold run
      rw [hmk]
      have hplan : plannedCmds cfg w p = plannedCmds cfg w2 p := by
        unfold plannedCmds
        rw [htd]
      show runSeq w (plannedCmds cfg w p) [] = runSeq w2 (plannedCmds cfg w2 p) []
      rw [← hplan]
      apply runSeq_congr
      intro j c hget hch
      simp only [List.length_nil, Nat.zero_add]
      have hw := hexec p j c hmk hget hch
      cases hcs : c.step with
      | login ropt u pw =>
        cases ropt with
        | none => rfl
        | some r =>
          show w.exec j = w2.exec j
          exact hw
      | pull i =>
        show w.exec j = w2.exec j
        exact hw
      | build a b c2 d e f =>
        show w.exec j = w2.exec j
        exact hw
      | test a b =>
        show w.exec j = w2.exec j
        exact hw
      | pushPrimary i =>
        show w.exec j = w2.exec j
        exact hw
      | tag a b =>
        show w.exec j = w2.exec j
        exact hw
      | pushExtra i =>
        show w.exec j = w2.exec j
        exact hw

/-- C8, witness: the theorem applied to a run whose first `docker tag`
(index 3) fails: the run aborts there; and its exit behaviour is not a
secondary-push or pull failure. -/
theorem C8_witness :
    ((run cfgC7 fsEmpty "/workdir" wFailTag).2 =
      Except.error (Err.cmdFailed (Step.tag "octocat/hello-world:abcdef123456"
        "octocat/hello-world:latest")) ∧
     (run cfgC7 fsEmpty "/workdir" wFailTag).1.length = 3 + 1) ∧
    ((run cfgC7 fsEmpty "/workdir" wFailTag).2 ≠
      Except.error (Err.cmdFailed (Step.pushExtra "octocat/hello-world:latest")) ∧
     (run cfgC7 fsEmpty "/workdir" wFailTag).2 ≠
      Except.error (Err.cmdFailed (Step.pull "octocat/hello-world:latest"))) :=
  ⟨(C8_tag_fatal cfgC7 fsEmpty "/workdir" wFailTag).1 3
      "octocat/hello-world:abcdef123456" "octocat/hello-world:latest" (by decide) rfl,
   (C8_tag_fatal cfgC7 fsEmpty "/workdir" wFailTag).2.1 "octocat/hello-world:latest"⟩

/-- C9: registry authentication is attempted exactly when pushing is
enabled and both a username and a password are configured; every login
the run emits carries the configured registry, username and password, the
password is supplied through standard input, and the constructed argument
list is registry, `-u`, username, `--password-stdin` - independent of the
password, which never enters it. -/
theorem C9_login (cfg : Config) (fs : String → Option String) (cwd : String) (w : World)
    (p : Plan) (hp : mkPlan cfg fs cwd = Except.ok p) :
    ((∃ ropt u pw, Step.login ropt u pw ∈ (run cfg fs cwd w).1) ↔
      (p.push = true ∧ truthy cfg.docker_password = true ∧
        truthy cfg.docker_username = true)) ∧
    (∀ ropt u pw, Step.login ropt u pw ∈ (run cfg fs cwd w).1 →
      ropt = cfg.docker_registry ∧ u = cfg.docker_username.getD "" ∧
      pw = cfg.docker_password.getD "" ∧
      stdinOf (Step.login ropt u pw) = some pw ∧
      (∀ reg, ropt = some reg →
        argvOf (Step.login ropt u pw) =
          some ["docker", "login", reg, "-u", u, "--password-stdin"]) ∧
      (∀ pw2, argvOf (Step.login ropt u pw2) = argvOf (Step.login ropt u pw))) := by
  have hrun : (run cfg fs cwd w).1 = (runSeq w (plannedCmds cfg w p) []).1 := by
    unfold run
    rw [hp]
    rfl
  have hinv : ∀ ropt u pw, Step.login ropt u pw ∈ (run cfg fs cwd w).1 →
      loginNeeded cfg p = true ∧ ropt = cfg.docker_registry ∧
      u = cfg.docker_username.getD "" ∧ pw = cfg.docker_password.getD "" := by
    intro ropt u pw hmem
    rw [hrun] at hmem
    have hsub := runSeq_trace_sublist w (plannedCmds cfg w p)
    obtain ⟨c, hc, hcs⟩ := List.mem_map.mp (hsub.subset hmem)
    rcases mem_planned_inv hc with ⟨hl, rfl⟩ | rfl | rfl | ⟨_, rfl⟩ | ⟨_, rfl | ⟨t, _, rfl | rfl⟩⟩ <;>
      first
      | (injection hcs with h1 h2 h3
         exact ⟨hl, h1.symm, h2.symm, h3.symm⟩)
      | cases hcs
  refine ⟨⟨?_, ?_⟩, ?_⟩
  · rintro ⟨ropt, u, pw, hmem⟩
    have hl := (hinv ropt u pw hmem).1
    unfold loginNeeded at hl
    rw [Bool.and_eq_true, Bool.and_eq_true] at hl
    exact ⟨hl.1.1, hl.1.2, hl.2⟩
  · rintro ⟨hpush, hpw, hus⟩
    refine ⟨cfg.docker_registry, cfg.docker_username.getD "", cfg.docker_password.getD "", ?_⟩
    rw [hrun]
    have hl : loginNeeded cfg p = true := by
      unfold loginNeeded
      rw [hpush, hpw, hus]
      rfl
    have hplan : plannedCmds cfg w p =
        ⟨Step.login cfg.docker_registry (cfg.docker_username.getD "")
          (cfg.docker_password.getD ""), true⟩ ::
        ([⟨Step.pull p.full_image_name, false⟩,
          ⟨Step.build p.notebook_user p.repo_dir p.full_image_name p.image_name
            p.appendix p.src_dir, true⟩] ++
        (if w.testsDir (p.src_dir ++ "/image-tests") = true then
          [⟨Step.test p.repo_dir p.full_image_name, true⟩]
        else []) ++
        (if p.push = true then
          ⟨Step.pushPrimary p.full_image_name, true⟩ ::
            (additional_tags cfg).flatMap (tagCmds p)
        else [])) := by
      unfold plannedCmds
      rw [if_pos hl]
      simp [List.append_assoc]
    rw [hplan]
    exact runSeq_mem_head _ _
  · intro ropt u pw hmem
    obtain ⟨hl, h1, h2, h3⟩ := hinv ropt u pw hmem
    subst h1
    subst h2
    subst h3
    refine ⟨rfl, rfl, rfl, rfl, ?_, ?_⟩
    · intro reg hreg
      rw [hreg]
      rfl
    · intro pw2
      cases cfg.docker_registry <;> rfl

/-- C9, witness: the theorem applied to the credentialed run: stdin is
the password, the argument list is fixed and password-independent. -/
theorem C9_witness :
    stdinOf (Step.login (some "registry.io") "user" "hunter2") = some "hunter2" ∧
    argvOf (Step.login (some "registry.io") "user" "hunter2") =
      some ["docker", "login", "registry.io", "-u", "user", "--password-stdin"] ∧
    argvOf (Step.login (some "registry.io") "user" "swordfish") =
      argvOf (Step.login (some "registry.io") "user" "hunter2") := by
  have h := (C9_login cfgC9 fsEmpty "/workdir" wAllOk planC9 rfl).2
    (some "registry.io") "user" "hunter2" (by decide)
  exact ⟨h.2.2.2.1, h.2.2.2.2.1 "registry.io" rfl, h.2.2.2.2.2 "swordfish"⟩

/-- C10, counterexample: the claim says the empty string behaves as
absent for every option except DOCKER_USERNAME.  REPO_DIR refutes it: set
to the empty string the repository directory is `""`, absent it is
`/home/jovyan`; and DOCKER_REGISTRY refutes it too: with credentials the
login command carries the empty registry argument when it is empty but a
`None` (crashing the call) when it is absent, so the traces differ. -/
theorem C10_counterexample :
    (mkPlan cfgRepoDirEmpty fsEmpty "/workdir").toOption.map Plan.repo_dir = some "" ∧
    (mkPlan cfgBase fsEmpty "/workdir").toOption.map Plan.repo_dir = some "/home/jovyan" ∧
    (run cfgRegEmpty fsEmpty "/workdir" wAllOk).1 ≠
      (run cfgRegNone fsEmpty "/workdir" wAllOk).1 :=
  ⟨by decide, by decide, by decide⟩

/-- C10, amended: an option set to the empty string behaves as if absent
for APPENDIX_FILE, IMAGE_NAME, DOCKER_PASSWORD, NOTEBOOK_USER,
MYBINDERORG_TAG, BINDER_CACHE, NO_PUSH, LATEST_TAG_OFF and
ADDITIONAL_TAG; the exceptions are DOCKER_USERNAME (tested for absence:
with IMAGE_NAME unset and DOCKER_USERNAME empty the username branch is
taken and the image name is `/{repo_name}` with an empty namespace, not
`{actor}/{repo_name}`), REPO_DIR (an empty value is used verbatim instead
of the `/home/{notebook_user}` default) and DOCKER_REGISTRY (an empty
value reaches the login call as `""` where an absent one is `None`). -/
theorem C10_amended (cfg : Config) (fs : String → Option String) (cwd : String) (w : World) :
    (run { cfg with appendix_file := some "" } fs cwd w =
      run { cfg with appendix_file := none } fs cwd w) ∧
    (run { cfg with image_name := some "" } fs cwd w =
      run { cfg with image_name := none } fs cwd w) ∧
    (run { cfg with docker_password := some "" } fs cwd w =
      run { cfg with docker_password := none } fs cwd w) ∧
    (run { cfg with notebook_user := some "" } fs cwd w =
      run { cfg with notebook_user := none } fs cwd w) ∧
    (run { cfg with mybinderorg_tag := some "" } fs cwd w =
      run { cfg with mybinderorg_tag := none } fs cwd w) ∧
    (run { cfg with binder_cache := some "" } fs cwd w =
      run { cfg with binder_cache := none } fs cwd w) ∧
    (run { cfg with no_push := some "" } fs cwd w =
      run { cfg with no_push := none } fs cwd w) ∧
    (run { cfg with latest_tag_off := some "" } fs cwd w =
      run { cfg with latest_tag_off := none } fs cwd w) ∧
    (run { cfg with additional_tag := some "" } fs cwd w =
      run { cfg with additional_tag := none } fs cwd w) ∧
    (∀ p repo, cfg.image_name = none → cfg.docker_username = some "" →
      cfg.docker_registry = none → cfg.github_repository = some repo →
      mkPlan cfg fs cwd = Except.ok p →
      p.image_name = pyLower ("/" ++ pyLastSegment repo)) := by
  refine ⟨?_, ?_, ?_, ?_, ?_, ?_, ?_, ?_, ?_, ?_⟩
  · exact run_congr fs cwd w rfl rfl (fun r => rfl) rfl rfl rfl rfl rfl rfl
      (fun _ => rfl) rfl rfl
  · exact run_congr fs cwd w rfl rfl (fun r => rfl) rfl rfl rfl rfl rfl rfl
      (fun _ => rfl) rfl rfl
  · exact run_congr fs cwd w rfl rfl (fun r => rfl) rfl rfl rfl rfl rfl rfl
      (fun h => nomatch h) rfl rfl
  · exact run_congr fs cwd w rfl rfl (fun r => rfl) rfl rfl rfl rfl rfl rfl
      (fun _ => rfl) rfl rfl
  · exact run_congr fs cwd w rfl rfl (fun r => rfl) rfl rfl rfl rfl rfl rfl
      (fun _ => rfl) rfl rfl
  · exact run_congr fs cwd w rfl rfl (fun r => rfl) rfl rfl rfl rfl rfl rfl
      (fun _ => rfl) rfl rfl
  · exact run_congr fs cwd w rfl rfl (fun r => rfl) rfl rfl rfl rfl rfl rfl
      (fun _ => rfl) rfl rfl
  · exact run_congr fs cwd w rfl rfl (fun r => rfl) rfl rfl rfl rfl rfl rfl
      (fun _ => rfl) rfl rfl
  · exact run_congr fs cwd w rfl rfl (fun r => rfl) rfl rfl rfl rfl rfl rfl
      (fun _ => rfl) rfl rfl
  · intro p repo him hus hreg hrep hp
    obtain ⟨a, r, i, s, ha, hr, hi, hs, rfl⟩ := mkPlan_ok_iff.mp hp
    show i = _
    unfold repoNameOf at hr
    rw [hrep] at hr
    injection hr with hr
    unfold imageNameOf at hi
    rw [him, hus, hreg] at hi
    simp only [truthy, Bool.false_eq_true, if_false] at hi
    injection hi with hi
    rw [← hi, hr]
    rfl

/-- C10, witness: the amended theorem applied to the base configuration
(LATEST_TAG_OFF empty vs absent) and to the empty-username scenario. -/
theorem C10_witness :
    run { cfgBase with latest_tag_off := some "" } fsEmpty "/workdir" wAllOk =
      run { cfgBase with latest_tag_off := none } fsEmpty "/workdir" wAllOk ∧
    planUserEmpty.image_name = pyLower ("/" ++ pyLastSegment "octocat/hello-world") :=
  ⟨(C10_amended cfgBase fsEmpty "/workdir" wAllOk).2.2.2.2.2.2.2.1,
   (C10_amended cfgUserEmpty fsEmpty "/workdir" wAllOk).2.2.2.2.2.2.2.2.2 planUserEmpty
     "octocat/hello-world" rfl rfl rfl rfl rfl⟩
